import Mathlib

/-!
Shallow embedding of the authenticated post-access path of the backend:
the Pydantic schemas (src/schemas/post.py), the TTL cache manager
(src/utils/cache.py), the post service (src/services/post_service.py) and
the JWT verification helpers (src/utils/auth.py, src/utils/dependencies.py).
Machine state (database rows, cache store, clock) is passed explicitly;
Python exceptions become `Except` values carrying the HTTP status and the
detail string the code raises.
-/

namespace App

/-! ## CPython primitives used by the validators -/

/-- Byte length of the UTF-8 encoding of a string: the length of the Python
bytes object `v.encode("utf-8")`, i.e. the sum of the UTF-8 sizes of the
characters. -/
def utf8Len (s : String) : Nat := s.data.foldr (fun c n => c.utf8Size + n) 0

/-- Size in bytes that CPython's `sys.getsizeof` reports for a `bytes` object
of length `n`: the payload plus the 33-byte object header of a 64-bit
CPython build (`sys.getsizeof(b"") == 33`). -/
def pyGetsizeofBytes (n : Nat) : Nat := n + 33

/-! ## schemas/post.py -/

/-- Schema `PostCreate`: a validated create request. -/
structure PostCreate where
  text : String
deriving DecidableEq, Repr

/-- Construction of `PostCreate` as Pydantic performs it: the
`Field(min_length=1)` constraint, then the `validate_text_size` field
validator, which computes `sys.getsizeof(v.encode("utf-8"))` and rejects
when that exceeds `1024 * 1024`. -/
def PostCreate.make (text : String) : Except String PostCreate :=
  if text.length < 1 then
    .error "String should have at least 1 character"
  else
    let text_size := pyGetsizeofBytes (utf8Len text)
    if 1024 * 1024 < text_size then
      .error ("Розмір тексту посту не може перевищувати 1MB. Поточний розмір: "
        ++ Nat.repr text_size ++ " байт")
    else
      .ok ⟨text⟩

/-- An ORM `Post` row (models/post.py). Integer ids and integer timestamps
stand for Python ints and datetimes. -/
structure PostRec where
  id : Nat
  text : String
  user_id : Nat
  created_at : Nat
  updated_at : Nat
deriving DecidableEq, Repr

/-- Schema `PostResponse`: the response model with its `gt=0` field
constraints already checked. -/
structure PostResponse where
  id : Nat
  text : String
  user_id : Nat
  created_at : Nat
  updated_at : Nat
deriving DecidableEq, Repr

/-- The plain dict produced by `PostResponse.model_dump()`: one entry per
model field. -/
structure PostDict where
  id : Nat
  text : String
  user_id : Nat
  created_at : Nat
  updated_at : Nat
deriving DecidableEq, Repr

/-- `PostResponse.model_validate(post)` on an ORM row: validates the `gt=0`
constraints on `id` and `user_id` and builds the response model. -/
def PostResponse.model_validate (r : PostRec) : Except String PostResponse :=
  if 0 < r.id ∧ 0 < r.user_id then
    .ok ⟨r.id, r.text, r.user_id, r.created_at, r.updated_at⟩
  else
    .error "validation error for PostResponse"

/-- `PostResponse(**post)` on a cached dict: the same `gt=0` validation,
rebuilding the model from the dict's fields. -/
def PostResponse.ofDict (d : PostDict) : Except String PostResponse :=
  if 0 < d.id ∧ 0 < d.user_id then
    .ok ⟨d.id, d.text, d.user_id, d.created_at, d.updated_at⟩
  else
    .error "validation error for PostResponse"

/-- `post.model_dump()`: the dict of the model's fields. -/
def PostResponse.model_dump (p : PostResponse) : PostDict :=
  ⟨p.id, p.text, p.user_id, p.created_at, p.updated_at⟩

/-- Schema `PostDeleteResponse` with its `gt=0` constraint on `post_id`. -/
structure PostDeleteResponse where
  message : String
  post_id : Nat
deriving DecidableEq, Repr

/-- An HTTP error as the code raises it: `HTTPException(status_code, detail)`. -/
structure HTTPError where
  status : Nat
  detail : String
deriving DecidableEq, Repr

/-! ## utils/cache.py -/

/-- The decimal digit characters of `n`, most significant first; the list
`Nat.toDigitsCore` produces. Used to reason about `Nat.repr` inside cache
keys. -/
def digitsList (n : Nat) : List Char :=
  if n < 10 then [Nat.digitChar n]
  else digitsList (n / 10) ++ [Nat.digitChar (n % 10)]
termination_by n
decreasing_by exact Nat.div_lt_self (by omega) (by omega)

/-- Decimal value of a digit character. -/
def charVal (c : Char) : Nat := c.toNat - 48

/-- Value of a most-significant-first digit string. -/
def digitsVal (l : List Char) : Nat := l.foldl (fun a c => 10 * a + charVal c) 0

/-- `CacheManager._make_cache_key(user_id, prefix="posts")`: the f-string
`f"{prefix}:{user_id}"`. (`prefix` is a Lean keyword, hence the parameter
name `pre`.) -/
def CacheManager.make_cache_key (user_id : Nat) (pre : String := "posts") : String :=
  pre ++ ":" ++ Nat.repr user_id

/-- The value stored under a cache key by `set_user_posts`: the dict
`{"posts": ..., "cached_at": ..., "user_id": ...}`. -/
structure CacheData where
  posts : List PostDict
  cached_at : Nat
  user_id : Nat
deriving DecidableEq, Repr

/-- One slot of the `TTLCache`: the stored dict together with the moment the
entry expires (insertion time plus the TTL). -/
structure CacheEntry where
  expires : Nat
  data : CacheData
deriving DecidableEq, Repr

/-- The `posts_cache` TTLCache contents as an association list keyed by the
cache-key strings. Expiry is passive and is modelled at lookup time, as the
TTLCache does on access; the physical removal moment of an expired slot is
unobservable through the manager's interface and is not modelled, nor is
the 1000-entry LRU bound (every claim exercises far fewer entries, and
eviction only removes entries). -/
abbrev CacheStore : Type := List (String × CacheEntry)

/-- TTL of `posts_cache`: 300 seconds. -/
def CACHE_TTL : Nat := 300

/-- `maxsize` of `posts_cache` (reported by `get_cache_info`). -/
def CACHE_MAXSIZE : Nat := 1000

/-- Raw slot lookup in the association list. -/
def lookupKey : CacheStore → String → Option CacheEntry
  | [], _ => none
  | (k, e) :: rest, key => if k = key then some e else lookupKey rest key

/-- Removal of a key's slot. -/
def removeKey (store : CacheStore) (key : String) : CacheStore :=
  store.filter (fun kv => kv.1 ≠ key)

/-- Overwriting insertion, as `posts_cache[cache_key] = cache_data`. -/
def storeSet (store : CacheStore) (key : String) (e : CacheEntry) : CacheStore :=
  (key, e) :: removeKey store key

/-- `CacheManager.get_user_posts(user_id)` at clock `now`: look the key up in
the TTLCache (absent or expired gives `None`), and on a stored dict — always
truthy, it has three keys — return its `"posts"` list. -/
def CacheManager.get_user_posts (now : Nat) (store : CacheStore) (user_id : Nat) :
    Option (List PostDict) :=
  match lookupKey store (CacheManager.make_cache_key user_id) with
  | some e => if now < e.expires then some e.data.posts else none
  | none => none

/-- `CacheManager.set_user_posts(user_id, posts)` at clock `now`: store the
wrapper dict under the user's key; the TTLCache stamps the entry with
`now + ttl`. -/
def CacheManager.set_user_posts (now : Nat) (store : CacheStore) (user_id : Nat)
    (posts : List PostDict) : CacheStore :=
  storeSet store (CacheManager.make_cache_key user_id)
    ⟨now + CACHE_TTL, ⟨posts, now, user_id⟩⟩

/-- `CacheManager.invalidate_user_posts(user_id)`: delete the user's slot if
present; a no-op otherwise (the two branches differ only in what they
print). -/
def CacheManager.invalidate_user_posts (store : CacheStore) (user_id : Nat) : CacheStore :=
  removeKey store (CacheManager.make_cache_key user_id)

/-! ## Database state and the service layer (services/post_service.py) -/

/-- The mutable world the service threads: the `users` and `posts` tables,
the autoincrement counter, the shared `posts_cache`, and the clock (both
`func.now()` and the TTLCache timer). -/
structure Sys where
  users : List Nat
  posts : List PostRec
  next_id : Nat
  cache : CacheStore
  now : Nat
deriving DecidableEq, Repr

/-- Stable insertion of a row into a list sorted by `created_at` descending. -/
def insertByCreatedDesc (p : PostRec) : List PostRec → List PostRec
  | [] => [p]
  | q :: qs =>
    if q.created_at ≤ p.created_at then p :: q :: qs
    else q :: insertByCreatedDesc p qs

/-- Stable sort by `created_at` descending: the model of
`ORDER BY created_at DESC` over the table scan — the query names no second
sort key, so equal-`created_at` rows keep table (insertion) order. -/
def sortByCreatedDesc : List PostRec → List PostRec
  | [] => []
  | p :: ps => insertByCreatedDesc p (sortByCreatedDesc ps)

/-- The repository read in `get_user_posts`:
`db.query(Post).filter(Post.user_id == user_id).order_by(Post.created_at.desc()).all()`. -/
def dbQueryPostsByUser (s : Sys) (user_id : Nat) : List PostRec :=
  sortByCreatedDesc (s.posts.filter (fun p => p.user_id == user_id))

/-- Sequential evaluation of a Python list comprehension whose element
expression may raise: the first failure propagates. -/
def mapExcept (f : α → Except ε β) : List α → Except ε (List β)
  | [] => .ok []
  | a :: as =>
    match f a with
    | .error e => .error e
    | .ok b =>
      match mapExcept f as with
      | .error e => .error e
      | .ok bs => .ok (b :: bs)

/-- Result of `PostService.create_post`: the world afterwards and the value
returned or the `HTTPException` raised. -/
structure CreateResult where
  state : Sys
  result : Except HTTPError PostResponse
deriving Repr

/-- Result of `PostService.get_user_posts`, recording additionally whether
the repository was queried. -/
structure ListResult where
  state : Sys
  result : Except HTTPError (List PostResponse)
  dbTouched : Bool
deriving Repr

/-- Result of `PostService.delete_post`. -/
structure DeleteResult where
  state : Sys
  result : Except HTTPError PostDeleteResponse
deriving Repr

/-- `PostService.create_post(db, post_data, user_id)`. `commit` is `none`
when the insert commits, `some msg` when the storage layer raises with
message `msg`: then the session is rolled back — the insert is undone and
the cache was never touched — and a 500 wrapping the message is raised.
On commit the new row gets the autoincrement id and `func.now()` stamps,
the user's cache slot is invalidated, and the row is validated into the
response (a validation failure at that point would be raised after the
commit, so the row stays). -/
def PostService.create_post (s : Sys) (post_data : PostCreate) (user_id : Nat)
    (commit : Option String) : CreateResult :=
  if user_id ∈ s.users then
    match commit with
    | some msg => ⟨s, .error ⟨500, "Помилка створення посту: " ++ msg⟩⟩
    | none =>
      let new_post : PostRec :=
        ⟨s.next_id, post_data.text, user_id, s.now, s.now⟩
      let s1 : Sys :=
        { s with
          posts := s.posts ++ [new_post]
          next_id := s.next_id + 1
          cache := CacheManager.invalidate_user_posts s.cache user_id }
      match PostResponse.model_validate new_post with
      | .ok resp => ⟨s1, .ok resp⟩
      | .error e => ⟨s1, .error ⟨500, "Помилка створення посту: " ++ e⟩⟩
  else
    ⟨s, .error ⟨404, "Користувача не знайдено"⟩⟩

/-- `PostService.get_user_posts(db, user_id)`: try the cache; on a hit,
rebuild the responses from the cached dicts and return without touching the
repository. On a miss, run the ordered query, validate each row into a
response, `model_dump` them and store the dicts in the cache, and return
the responses. -/
def PostService.get_user_posts (s : Sys) (user_id : Nat) : ListResult :=
  match CacheManager.get_user_posts s.now s.cache user_id with
  | some cached_posts =>
    match mapExcept PostResponse.ofDict cached_posts with
    | .ok resps => ⟨s, .ok resps, false⟩
    | .error e => ⟨s, .error ⟨500, e⟩, false⟩
  | none =>
    let posts := dbQueryPostsByUser s user_id
    match mapExcept PostResponse.model_validate posts with
    | .error e => ⟨s, .error ⟨500, e⟩, true⟩
    | .ok post_responses =>
      let posts_dict := post_responses.map PostResponse.model_dump
      ⟨{ s with cache := CacheManager.set_user_posts s.now s.cache user_id posts_dict },
        .ok post_responses, true⟩

/-- `PostService.delete_post(db, post_id, user_id)`: find the first row
matching both the post id and the owner id; absent, raise the 404 whose
message conflates missing and not-owned. Present, delete it by primary key
and commit (`commit` as in `create_post`), invalidate the owner's cache
slot, and build the confirmation (whose `gt=0` constraint on `post_id` is
checked by Pydantic). -/
def PostService.delete_post (s : Sys) (post_id : Nat) (user_id : Nat)
    (commit : Option String) : DeleteResult :=
  match (s.posts.filter (fun p => p.id == post_id && p.user_id == user_id)).head? with
  | none => ⟨s, .error ⟨404, "Пост не знайдено або він не належить вам"⟩⟩
  | some post =>
    match commit with
    | some msg => ⟨s, .error ⟨500, "Помилка видалення посту: " ++ msg⟩⟩
    | none =>
      let s1 : Sys :=
        { s with
          posts := s.posts.filter (fun p => !(p.id == post.id))
          cache := CacheManager.invalidate_user_posts s.cache user_id }
      if 0 < post_id then
        ⟨s1, .ok ⟨"Пост успішно видалено", post_id⟩⟩
      else
        ⟨s1, .error ⟨500, "Помилка видалення посту: validation error"⟩⟩

/-! ## utils/auth.py and utils/dependencies.py -/

/-- The claims carried by a decoded token, as the code reads them with
`payload.get("sub")` and `payload.get("user_id")`. -/
structure JWTPayload where
  sub : Option String
  user_id : Option Nat
deriving DecidableEq, Repr

/-- A presented bearer token as the jose library classifies it: possibly
malformed (undecodable), possibly carrying an invalid signature, with its
`exp` claim and its payload. -/
structure TokenModel where
  malformed : Bool
  sigValid : Bool
  exp : Nat
  payload : JWTPayload
deriving DecidableEq, Repr

/-- Modelled behavior of the jose library's
`jwt.decode(token, SECRET_KEY, algorithms=[ALGORITHM])`: raises `JWTError`
(whose `str(e)` is the library's per-cause message) on a malformed token,
a bad signature, or an `exp` at or before the current time; otherwise
yields the payload. -/
def jwtDecode (now : Nat) (t : TokenModel) : Except String JWTPayload :=
  if t.malformed then .error "Not enough segments"
  else if !t.sigValid then .error "Signature verification failed."
  else if t.exp ≤ now then .error "Signature has expired."
  else .ok t.payload

/-- `verify_token(token)`: decode; a `JWTError` becomes a 401 whose detail
interpolates `str(e)`; a payload missing `sub` or `user_id` raises the
401 with the missing-fields detail (an `HTTPException`, so the
`except JWTError` clause does not catch it). -/
def verify_token (now : Nat) (t : TokenModel) : Except HTTPError JWTPayload :=
  match jwtDecode now t with
  | .error e => .error ⟨401, "Недійсний токен: " ++ e⟩
  | .ok payload =>
    match payload.sub, payload.user_id with
    | some _, some _ => .ok payload
    | _, _ => .error ⟨401, "Недійсний токен: відсутні обов\x27язкові поля"⟩

/-- `extract_user_id_from_token(token)`: verify, then read `user_id` from
the payload. -/
def extract_user_id_from_token (now : Nat) (t : TokenModel) : Except HTTPError Nat :=
  match verify_token now t with
  | .error e => .error e
  | .ok payload =>
    match payload.user_id with
    | some uid => .ok uid
    | none => .error ⟨401, "Токен не містить ID користувача"⟩

/-- `get_current_user_id(credentials)`: the bearer credential's token through
`extract_user_id_from_token`. -/
def get_current_user_id (now : Nat) (credentials : TokenModel) : Except HTTPError Nat :=
  extract_user_id_from_token now credentials

/-- `optional_authentication(credentials)`: `None` when no credential is
presented; otherwise the extracted user id, with any `HTTPException`
swallowed into `None`. -/
def optional_authentication (now : Nat) (credentials : Option TokenModel) :
    Except HTTPError (Option Nat) :=
  match credentials with
  | none => .ok none
  | some c =>
    match extract_user_id_from_token now c with
    | .ok uid => .ok (some uid)
    | .error _ => .ok none

/-! ## Operation sequences over the service -/

/-- One inbound operation against the service, or the passage of time. A
`create` or `del` carries its storage-commit outcome. -/
inductive Op where
  | create (user_id : Nat) (post_data : PostCreate) (commit : Option String)
  | list (user_id : Nat)
  | del (post_id : Nat) (user_id : Nat) (commit : Option String)
  | tick (d : Nat)

/-- The world after one operation. -/
def stepSys (s : Sys) : Op → Sys
  | .create uid pd c => (PostService.create_post s pd uid c).state
  | .list uid => (PostService.get_user_posts s uid).state
  | .del pid uid c => (PostService.delete_post s pid uid c).state
  | .tick d => { s with now := s.now + d }

/-- The world after a sequence of operations. -/
def runSys (s : Sys) : List Op → Sys
  | [] => s
  | op :: ops => runSys (stepSys s op) ops

/-! ## Invariants and orderings the claims speak about -/

/-- Wellformed world: positive ids everywhere and a fresh autoincrement
counter, as the relational schema guarantees. -/
def WF (s : Sys) : Prop :=
  0 < s.next_id ∧
  (∀ u ∈ s.users, 0 < u) ∧
  (∀ p ∈ s.posts, 0 < p.id ∧ 0 < p.user_id)

/-- The ordering the spec claims for listings: creation time descending with
equal timestamps broken by descending id. -/
def specClaimedOrder (a b : PostResponse) : Prop :=
  b.created_at < a.created_at ∨ (a.created_at = b.created_at ∧ b.id < a.id)

instance : DecidableRel specClaimedOrder := fun a b => by
  unfold specClaimedOrder; infer_instance

/-- Per-owner keying invariant on a raw store: whatever is reachable under a
user's cache key holds only that user's posts. -/
def storeOwnedOk (store : CacheStore) : Prop :=
  ∀ uid e, lookupKey store (CacheManager.make_cache_key uid) = some e →
    ∀ d ∈ e.data.posts, d.user_id = uid

/-- Read-after-write shape for `create_post` with a committing insert: the
call returns the created post, leaves no cache slot for the owner (the slot
is invalidated and never repopulated), and the next `get_user_posts` for
the owner misses the cache, queries the repository, and returns a listing
containing the created post. -/
def C1Concl (s : Sys) (pd : PostCreate) (uid : Nat) : Prop :=
  ∃ resp,
    (PostService.create_post s pd uid none).result = .ok resp ∧
    lookupKey (PostService.create_post s pd uid none).state.cache
      (CacheManager.make_cache_key uid) = none ∧
    CacheManager.get_user_posts (PostService.create_post s pd uid none).state.now
      (PostService.create_post s pd uid none).state.cache uid = none ∧
    (PostService.get_user_posts (PostService.create_post s pd uid none).state uid).dbTouched
      = true ∧
    ∃ resps,
      (PostService.get_user_posts (PostService.create_post s pd uid none).state uid).result
        = .ok resps ∧ resp ∈ resps

/-- No listing for `uid1` contains a post owned by `uid2`. -/
def C3Concl (s : Sys) (uid1 uid2 : Nat) : Prop :=
  ∀ resps, (PostService.get_user_posts s uid1).result = .ok resps →
    ∀ p ∈ resps, p.user_id ≠ uid2

/-- Field-for-field copy of a row into a response, the value
`model_validate` yields once its constraints pass. -/
def toResponse (r : PostRec) : PostResponse :=
  ⟨r.id, r.text, r.user_id, r.created_at, r.updated_at⟩

/-- The world after a committing `create_post`: row appended with the
autoincrement id and `func.now()` stamps, counter bumped, owner's cache
slot invalidated. -/
def createdState (s : Sys) (pd : PostCreate) (uid : Nat) : Sys :=
  { s with
    posts := s.posts ++ [⟨s.next_id, pd.text, uid, s.now, s.now⟩]
    next_id := s.next_id + 1
    cache := CacheManager.invalidate_user_posts s.cache uid }

/-- Every successful listing is ordered by creation time descending. -/
def C6Concl (s : Sys) (uid : Nat) : Prop :=
  ∀ resps, (PostService.get_user_posts s uid).result = .ok resps →
    List.Pairwise (fun a b => b.created_at ≤ a.created_at) resps

/-- Cache round trip: after populating the owner's slot with the dumped
responses at time `s.now`, a read at time `now2` is a hit on exactly those
dicts, and the service returns the original responses element for element
without touching the repository. -/
def C10Concl (s : Sys) (uid : Nat) (ps : List PostResponse) (now2 : Nat) : Prop :=
  CacheManager.get_user_posts now2
      (CacheManager.set_user_posts s.now s.cache uid (ps.map PostResponse.model_dump)) uid
    = some (ps.map PostResponse.model_dump) ∧
  (PostService.get_user_posts
      { s with cache := (CacheManager.set_user_posts s.now s.cache uid
          (ps.map PostResponse.model_dump)), now := now2 } uid).result = .ok ps ∧
  (PostService.get_user_posts
      { s with cache := (CacheManager.set_user_posts s.now s.cache uid
          (ps.map PostResponse.model_dump)), now := now2 } uid).dbTouched = false

/-! ## Decimal representation: `Nat.repr` through `digitsList` -/

theorem digitsList_lt {n : Nat} (h : n < 10) : digitsList n = [Nat.digitChar n] := by
  rw [digitsList]
  simp [h]

theorem digitsList_ge {n : Nat} (h : ¬ n < 10) :
    digitsList n = digitsList (n / 10) ++ [Nat.digitChar (n % 10)] := by
  rw [digitsList]
  simp [h]

theorem toDigitsCore_eq (f : Nat) : ∀ (n : Nat) (ds : List Char), n < 10 ^ (f + 1) →
    Nat.toDigitsCore 10 (f + 1) n ds = digitsList n ++ ds := by
  induction f with
  | zero =>
    intro n ds h
    have h10 : n < 10 := by simpa using h
    have hdiv : n / 10 = 0 := Nat.div_eq_of_lt h10
    rw [digitsList_lt h10]
    simp [Nat.toDigitsCore, hdiv, Nat.mod_eq_of_lt h10]
  | succ f ih =>
    intro n ds h
    by_cases hdiv : n / 10 = 0
    · have h10 : n < 10 := by
        by_contra hge
        exact absurd hdiv (by
          have h1 : 10 ≤ n := Nat.le_of_not_lt hge
          have h2 : 0 < n / 10 := Nat.div_pos h1 (by norm_num)
          omega)
      rw [digitsList_lt h10]
      simp [Nat.toDigitsCore, hdiv, Nat.mod_eq_of_lt h10]
    · have h10 : ¬ n < 10 := fun hlt => hdiv (Nat.div_eq_of_lt hlt)
      have hn : n / 10 < 10 ^ (f + 1) := by
        refine (Nat.div_lt_iff_lt_mul (by norm_num)).mpr ?_
        calc n < 10 ^ (f + 1 + 1) := h
          _ = 10 ^ (f + 1) * 10 := by ring
      have hstep : Nat.toDigitsCore 10 (f + 1 + 1) n ds
          = Nat.toDigitsCore 10 (f + 1) (n / 10) (Nat.digitChar (n % 10) :: ds) := by
        simp [Nat.toDigitsCore, hdiv]
      rw [hstep, ih _ _ hn, digitsList_ge h10]
      simp

theorem repr_eq_digitsList (n : Nat) : Nat.repr n = (digitsList n).asString := by
  have h : n < 10 ^ (n + 1) :=
    lt_of_lt_of_le (Nat.lt_two_pow n)
      (le_trans (Nat.pow_le_pow_left (by norm_num) n)
        (Nat.pow_le_pow_right (by norm_num) (Nat.le_succ n)))
  show (Nat.toDigits 10 n).asString = _
  rw [show Nat.toDigits 10 n = Nat.toDigitsCore 10 (n + 1) n [] from rfl,
    toDigitsCore_eq n n [] h, List.append_nil]

theorem charVal_digitChar (d : Nat) (h : d < 10) : charVal (Nat.digitChar d) = d := by
  unfold charVal
  interval_cases d <;> rfl

theorem digitsVal_append (l : List Char) (c : Char) :
    digitsVal (l ++ [c]) = 10 * digitsVal l + charVal c := by
  simp [digitsVal, List.foldl_append]

theorem digitsVal_digitsList (n : Nat) : digitsVal (digitsList n) = n := by
  induction n using Nat.strong_induction_on with
  | _ n ih =>
    by_cases h : n < 10
    · rw [digitsList_lt h]
      simp [digitsVal, charVal_digitChar n h]
    · rw [digitsList_ge h, digitsVal_append,
        ih (n / 10) (Nat.div_lt_self (by omega) (by omega)),
        charVal_digitChar _ (Nat.mod_lt n (by norm_num))]
      omega

theorem repr_inj {a b : Nat} (h : Nat.repr a = Nat.repr b) : a = b := by
  rw [repr_eq_digitsList, repr_eq_digitsList] at h
  have hd : digitsList a = digitsList b := by
    have h2 := congrArg String.data h
    simpa [List.asString] using h2
  calc a = digitsVal (digitsList a) := (digitsVal_digitsList a).symm
    _ = digitsVal (digitsList b) := by rw [hd]
    _ = b := digitsVal_digitsList b

theorem make_cache_key_inj {a b : Nat}
    (h : CacheManager.make_cache_key a = CacheManager.make_cache_key b) : a = b := by
  unfold CacheManager.make_cache_key at h
  have hdata := congrArg String.data h
  simp only [String.data_append, List.append_assoc] at hdata
  have h1 : (Nat.repr a).data = (Nat.repr b).data :=
    List.append_cancel_left (List.append_cancel_left hdata)
  exact repr_inj (congrArg String.mk h1)

/-! ## Association-list store lemmas -/

theorem lookupKey_removeKey_self (store : CacheStore) (k : String) :
    lookupKey (removeKey store k) k = none := by
  induction store with
  | nil => rfl
  | cons kv rest ih =>
    by_cases hk : kv.1 = k
    · simpa [removeKey, List.filter, hk] using ih
    · simpa [removeKey, List.filter, hk, lookupKey] using ih

theorem lookupKey_removeKey_ne (store : CacheStore) {k k' : String} (h : k' ≠ k) :
    lookupKey (removeKey store k) k' = lookupKey store k' := by
  induction store with
  | nil => rfl
  | cons kv rest ih =>
    by_cases hk : kv.1 = k
    · have hne : ¬ kv.1 = k' := by rw [hk]; exact fun hh => h hh.symm
      simpa [removeKey, List.filter_cons, hk, lookupKey, hne,
        show ¬ k = k' from fun hh => h hh.symm] using ih
    · by_cases hk' : kv.1 = k'
      · simp [removeKey, List.filter_cons, hk, lookupKey, hk', h]
      · simpa [removeKey, List.filter_cons, hk, lookupKey, hk'] using ih

theorem lookupKey_storeSet_self (store : CacheStore) (k : String) (e : CacheEntry) :
    lookupKey (storeSet store k e) k = some e := by
  simp [storeSet, lookupKey]

theorem lookupKey_storeSet_ne (store : CacheStore) (e : CacheEntry) {k k' : String}
    (h : k' ≠ k) : lookupKey (storeSet store k e) k' = lookupKey store k' := by
  simp [storeSet, lookupKey, show ¬ k = k' from fun hh => h hh.symm,
    lookupKey_removeKey_ne store h]

/-! ## `mapExcept` lemmas -/

theorem mapExcept_ok_of_forall {α β ε : Type} {f : α → Except ε β} {g : α → β} :
    ∀ {l : List α}, (∀ a ∈ l, f a = .ok (g a)) → mapExcept f l = .ok (l.map g)
  | [], _ => rfl
  | a :: as, h => by
    have ha := h a (List.mem_cons_self a as)
    have hrest := mapExcept_ok_of_forall (l := as)
      (fun x hx => h x (List.mem_cons_of_mem a hx))
    simp [mapExcept, ha, hrest]

theorem mapExcept_mem_ok {α β ε : Type} {f : α → Except ε β} :
    ∀ {l : List α} {bs : List β}, mapExcept f l = .ok bs →
      ∀ b ∈ bs, ∃ a ∈ l, f a = .ok b := by
  intro l
  induction l with
  | nil =>
    intro bs h b hb
    simp [mapExcept] at h
    subst h
    simp at hb
  | cons a as ih =>
    intro bs h b hb
    unfold mapExcept at h
    cases hfa : f a with
    | error e => rw [hfa] at h; exact absurd h (by simp)
    | ok b0 =>
      rw [hfa] at h
      cases hrest : mapExcept f as with
      | error e => rw [hrest] at h; exact absurd h (by simp)
      | ok bs0 =>
        rw [hrest] at h
        simp only [Except.ok.injEq] at h
        subst h
        rcases List.mem_cons.mp hb with rfl | hmem
        · exact ⟨a, List.mem_cons_self a as, hfa⟩
        · rcases ih hrest b hmem with ⟨a', ha', hfa'⟩
          exact ⟨a', List.mem_cons_of_mem a ha', hfa'⟩

/-! ## Sorting lemmas -/

theorem mem_insertByCreatedDesc {p q : PostRec} :
    ∀ {l : List PostRec}, q ∈ insertByCreatedDesc p l ↔ q = p ∨ q ∈ l
  | [] => by simp [insertByCreatedDesc]
  | r :: rs => by
    by_cases h : r.created_at ≤ p.created_at
    · simp [insertByCreatedDesc, h]
    · simp [insertByCreatedDesc, h, mem_insertByCreatedDesc (l := rs)]
      tauto

theorem mem_sortByCreatedDesc {q : PostRec} :
    ∀ {l : List PostRec}, q ∈ sortByCreatedDesc l ↔ q ∈ l
  | [] => by simp [sortByCreatedDesc]
  | p :: ps => by
    simp [sortByCreatedDesc, mem_insertByCreatedDesc, mem_sortByCreatedDesc (l := ps)]

theorem sorted_insertByCreatedDesc (p : PostRec) :
    ∀ {l : List PostRec}, List.Pairwise (fun a b => b.created_at ≤ a.created_at) l →
      List.Pairwise (fun a b => b.created_at ≤ a.created_at) (insertByCreatedDesc p l)
  | [], _ => by simp [insertByCreatedDesc]
  | q :: qs, h => by
    rcases List.pairwise_cons.mp h with ⟨hq, hqs⟩
    by_cases hcmp : q.created_at ≤ p.created_at
    · rw [show insertByCreatedDesc p (q :: qs) = p :: q :: qs from by
        simp [insertByCreatedDesc, hcmp]]
      refine List.pairwise_cons.mpr ⟨?_, h⟩
      intro x hx
      rcases List.mem_cons.mp hx with rfl | hx
      · exact hcmp
      · exact le_trans (hq x hx) hcmp
    · rw [show insertByCreatedDesc p (q :: qs) = q :: insertByCreatedDesc p qs from by
        simp [insertByCreatedDesc, hcmp]]
      refine List.pairwise_cons.mpr ⟨?_, sorted_insertByCreatedDesc p hqs⟩
      intro x hx
      rcases mem_insertByCreatedDesc.mp hx with rfl | hx
      · exact le_of_lt (Nat.lt_of_not_le hcmp)
      · exact hq x hx

theorem sorted_sortByCreatedDesc :
    ∀ (l : List PostRec),
      List.Pairwise (fun a b => b.created_at ≤ a.created_at) (sortByCreatedDesc l)
  | [] => by simp [sortByCreatedDesc]
  | p :: ps => sorted_insertByCreatedDesc p (sorted_sortByCreatedDesc ps)

/-! ## Validation lemmas -/

theorem model_validate_ok {r : PostRec} (h1 : 0 < r.id) (h2 : 0 < r.user_id) :
    PostResponse.model_validate r = .ok ⟨r.id, r.text, r.user_id, r.created_at, r.updated_at⟩ := by
  simp [PostResponse.model_validate, h1, h2]

theorem model_validate_fields {r : PostRec} {p : PostResponse}
    (h : PostResponse.model_validate r = .ok p) :
    p = ⟨r.id, r.text, r.user_id, r.created_at, r.updated_at⟩ ∧ 0 < r.id ∧ 0 < r.user_id := by
  unfold PostResponse.model_validate at h
  split at h
  · exact ⟨by injection h with h; exact h.symm, by assumption⟩
  · exact absurd h (by simp)

theorem ofDict_model_dump {p : PostResponse} (h1 : 0 < p.id) (h2 : 0 < p.user_id) :
    PostResponse.ofDict p.model_dump = .ok p := by
  simp [PostResponse.ofDict, PostResponse.model_dump, h1, h2]

theorem ofDict_fields {d : PostDict} {p : PostResponse}
    (h : PostResponse.ofDict d = .ok p) :
    p = ⟨d.id, d.text, d.user_id, d.created_at, d.updated_at⟩ := by
  unfold PostResponse.ofDict at h
  split at h
  · injection h with h; exact h.symm
  · exact absurd h (by simp)

theorem mapExcept_ofDict_dump (ps : List PostResponse)
    (h : ∀ p ∈ ps, 0 < p.id ∧ 0 < p.user_id) :
    mapExcept PostResponse.ofDict (ps.map PostResponse.model_dump) = .ok ps := by
  induction ps with
  | nil => rfl
  | cons p ps ih =>
    have hp := h p (List.mem_cons_self p ps)
    have hrest := ih (fun x hx => h x (List.mem_cons_of_mem p hx))
    simp [List.map_cons, mapExcept, ofDict_model_dump hp.1 hp.2, hrest]

/-! ## Claim theorems -/

/-- C2. For every owner, `get_user_posts` on a cache hit answers from the
cached snapshot without touching the repository or mutating any state; on a
cache miss it queries the repository, and on success the returned sequence
is the validated repository listing, which is also dumped and stored in the
owner's cache slot. -/
theorem C2_list_cache_protocol (s : Sys) (uid : Nat) :
    (∀ cached, CacheManager.get_user_posts s.now s.cache uid = some cached →
      (PostService.get_user_posts s uid).dbTouched = false ∧
      (PostService.get_user_posts s uid).state = s ∧
      ∀ resps, (PostService.get_user_posts s uid).result = .ok resps →
        mapExcept PostResponse.ofDict cached = .ok resps) ∧
    (CacheManager.get_user_posts s.now s.cache uid = none →
      (PostService.get_user_posts s uid).dbTouched = true ∧
      ∀ resps, (PostService.get_user_posts s uid).result = .ok resps →
        mapExcept PostResponse.model_validate (dbQueryPostsByUser s uid) = .ok resps ∧
        (PostService.get_user_posts s uid).state =
          { s with cache := (CacheManager.set_user_posts s.now s.cache uid
              (resps.map PostResponse.model_dump)) }) := by
  constructor
  · intro cached hhit
    refine ⟨?_, ?_, ?_⟩
    · cases hmap : mapExcept PostResponse.ofDict cached with
      | ok resps => simp [PostService.get_user_posts, hhit, hmap]
      | error e => simp [PostService.get_user_posts, hhit, hmap]
    · cases hmap : mapExcept PostResponse.ofDict cached with
      | ok resps => simp [PostService.get_user_posts, hhit, hmap]
      | error e => simp [PostService.get_user_posts, hhit, hmap]
    · intro resps hr
      cases hmap : mapExcept PostResponse.ofDict cached with
      | ok resps0 =>
        simp [PostService.get_user_posts, hhit, hmap] at hr
        rw [hr]
      | error e =>
        simp [PostService.get_user_posts, hhit, hmap] at hr
  · intro hmiss
    refine ⟨?_, ?_⟩
    · cases hmap : mapExcept PostResponse.model_validate (dbQueryPostsByUser s uid) with
      | ok resps => simp [PostService.get_user_posts, hmiss, hmap]
      | error e => simp [PostService.get_user_posts, hmiss, hmap]
    · intro resps hr
      cases hmap : mapExcept PostResponse.model_validate (dbQueryPostsByUser s uid) with
      | error e => simp [PostService.get_user_posts, hmiss, hmap] at hr
      | ok resps0 =>
        simp [PostService.get_user_posts, hmiss, hmap] at hr
        subst hr
        refine ⟨rfl, ?_⟩
        simp [PostService.get_user_posts, hmiss, hmap]

/-- C8. If the repository insert inside `create_post` fails, the session is
rolled back: the world — in particular the owner's cache slot — is exactly
as before the call, and the failure surfaces to the caller as the 500
wrapping the storage error. -/
theorem C8_create_repo_failure (s : Sys) (pd : PostCreate) (uid : Nat) (msg : String)
    (huid : uid ∈ s.users) :
    PostService.create_post s pd uid (some msg)
      = ⟨s, .error ⟨500, "Помилка створення посту: " ++ msg⟩⟩ ∧
    (PostService.create_post s pd uid (some msg)).state.cache = s.cache := by
  constructor
  · unfold PostService.create_post
    rw [if_pos huid]
  · unfold PostService.create_post
    rw [if_pos huid]

theorem C8_create_repo_failure_witness :
    PostService.create_post ⟨[1], [], 1, [], 0⟩ ⟨"hello"⟩ 1 (some "db down")
      = ⟨⟨[1], [], 1, [], 0⟩, .error ⟨500, "Помилка створення посту: db down"⟩⟩ ∧
    (PostService.create_post ⟨[1], [], 1, [], 0⟩ ⟨"hello"⟩ 1 (some "db down")).state.cache
      = ([] : CacheStore) :=
  C8_create_repo_failure ⟨[1], [], 1, [], 0⟩ ⟨"hello"⟩ 1 "db down" (by decide)

/-- C9. `optional_authentication` yields the extracted owner id when a
credential is presented and verifies, yields the absent identity both when
no credential is presented and when extraction fails with its 401, and
never itself raises. -/
theorem C9_optional_authentication (now : Nat) (cred : Option TokenModel) :
    (cred = none → optional_authentication now cred = .ok none) ∧
    (∀ t, cred = some t →
      (∀ uid, extract_user_id_from_token now t = .ok uid →
        optional_authentication now cred = .ok (some uid)) ∧
      (∀ e, extract_user_id_from_token now t = .error e →
        optional_authentication now cred = .ok none)) ∧
    (∀ e, optional_authentication now cred ≠ .error e) := by
  refine ⟨?_, ?_, ?_⟩
  · intro h; rw [h]; rfl
  · intro t ht
    subst ht
    constructor
    · intro uid huid
      simp [optional_authentication, huid]
    · intro e he
      simp [optional_authentication, he]
  · intro e
    cases cred with
    | none => simp [optional_authentication]
    | some t =>
      cases hx : extract_user_id_from_token now t <;>
        simp [optional_authentication, hx]

/-- C7 counterexample. Two verification failures — an expired signature and
an invalid signature — surface through `verify_token` with different
caller-facing detail strings, each naming its internal cause: the outcome
message is not uniform and leaks the cause. -/
theorem C7_counterexample :
    verify_token 10 ⟨false, true, 5, ⟨some "u@example.com", some 1⟩⟩
      = .error ⟨401, "Недійсний токен: Signature has expired."⟩ ∧
    verify_token 10 ⟨false, false, 20, ⟨some "u@example.com", some 1⟩⟩
      = .error ⟨401, "Недійсний токен: Signature verification failed."⟩ ∧
    ("Недійсний токен: Signature has expired." : String)
      ≠ "Недійсний токен: Signature verification failed." := by
  refine ⟨rfl, rfl, by decide⟩

theorem verify_error_401 (now : Nat) (t : TokenModel) :
    ∀ e, verify_token now t = .error e → e.status = 401 := by
  intro e he
  unfold verify_token at he
  split at he
  · injection he with he; rw [← he]
  · split at he
    · exact absurd he (by simp)
    · injection he with he; rw [← he]

theorem extract_error_401 (now : Nat) (t : TokenModel) :
    ∀ e, extract_user_id_from_token now t = .error e → e.status = 401 := by
  intro e he
  unfold extract_user_id_from_token at he
  split at he
  · rename_i e' heq
    injection he with he
    subst he
    exact verify_error_401 now t e' heq
  · split at he
    · exact absurd he (by simp)
    · injection he with he; rw [← he]

/-- C7 amended. Every verification failure — malformed encoding, bad
signature, expiry passed, or missing required claim fields — surfaces from
`verify_token` (and from `get_current_user_id`) with HTTP status 401; in
particular a token whose expiry has passed fails with 401. The detail
string, however, varies with the cause. -/
theorem C7_unauthorized_status (now : Nat) (t : TokenModel) :
    (∀ e, verify_token now t = .error e → e.status = 401) ∧
    (∀ e, get_current_user_id now t = .error e → e.status = 401) ∧
    (t.malformed = false → t.sigValid = true → t.exp ≤ now →
      ∃ e, verify_token now t = .error e ∧ e.status = 401) := by
  refine ⟨verify_error_401 now t, ?_, ?_⟩
  · intro e he
    unfold get_current_user_id at he
    exact extract_error_401 now t e he
  · intro hm hs hexp
    refine ⟨⟨401, "Недійсний токен: " ++ "Signature has expired."⟩, ?_, rfl⟩
    unfold verify_token jwtDecode
    rw [hm, hs]
    simp [hexp]

/-! ## C5: the text-size validator measures object size, not byte length -/

theorem foldr_utf8_replicate_a (n : Nat) :
    (List.replicate n 'a').foldr (fun c m => c.utf8Size + m) 0 = n := by
  induction n with
  | zero => rfl
  | succ n ih =>
    rw [List.replicate_succ, List.foldr_cons, ih,
      show ('a').utf8Size = 1 from by decide]
    omega

theorem utf8Len_replicate_a (n : Nat) :
    utf8Len (String.mk (List.replicate n 'a')) = n :=
  foldr_utf8_replicate_a n

theorem string_mk_length (l : List Char) : (String.mk l).length = l.length := rfl

/-- C5. The code evaluates `sys.getsizeof(text.encode("utf-8"))`, which is
the UTF-8 byte length plus CPython's 33-byte `bytes` header. A text of
exactly 1,048,576 UTF-8 bytes — within the documented 1 MiB contract — is
therefore rejected (as is one of 1,048,577 bytes), and the effective
acceptance bound sits at 1,048,543 bytes. -/
theorem C5_getsizeof_off_by_header :
    (∃ e, PostCreate.make (String.mk (List.replicate 1048576 'a')) = .error e) ∧
    (∃ e, PostCreate.make (String.mk (List.replicate 1048577 'a')) = .error e) ∧
    PostCreate.make (String.mk (List.replicate 1048543 'a'))
      = .ok ⟨String.mk (List.replicate 1048543 'a')⟩ := by
  refine ⟨?_, ?_, ?_⟩
  · unfold PostCreate.make
    rw [string_mk_length, List.length_replicate, if_neg (by norm_num),
      utf8Len_replicate_a, if_pos (by norm_num [pyGetsizeofBytes])]
    exact ⟨_, rfl⟩
  · unfold PostCreate.make
    rw [string_mk_length, List.length_replicate, if_neg (by norm_num),
      utf8Len_replicate_a, if_pos (by norm_num [pyGetsizeofBytes])]
    exact ⟨_, rfl⟩
  · unfold PostCreate.make
    rw [string_mk_length, List.length_replicate, if_neg (by norm_num),
      utf8Len_replicate_a, if_neg (by norm_num [pyGetsizeofBytes])]

/-! ## `Forall₂` transfer lemmas -/

theorem mapExcept_forall₂ {α β ε : Type} {f : α → Except ε β} :
    ∀ {l : List α} {bs : List β}, mapExcept f l = .ok bs →
      List.Forall₂ (fun a b => f a = .ok b) l bs := by
  intro l
  induction l with
  | nil =>
    intro bs h
    simp [mapExcept] at h
    subst h
    exact List.Forall₂.nil
  | cons a as ih =>
    intro bs h
    unfold mapExcept at h
    cases hfa : f a with
    | error e => rw [hfa] at h; exact absurd h (by simp)
    | ok b0 =>
      rw [hfa] at h
      cases hrest : mapExcept f as with
      | error e => rw [hrest] at h; exact absurd h (by simp)
      | ok bs0 =>
        rw [hrest] at h
        simp only [Except.ok.injEq] at h
        subst h
        exact List.Forall₂.cons hfa (ih hrest)

theorem forall₂_mem_right {α β : Type} {rel : α → β → Prop} :
    ∀ {l : List α} {bs : List β}, List.Forall₂ rel l bs →
      ∀ b ∈ bs, ∃ a ∈ l, rel a b := by
  intro l bs h
  induction h with
  | nil => intro b hb; simp at hb
  | cons hab h ih =>
    intro b hb
    rcases List.mem_cons.mp hb with rfl | hb
    · exact ⟨_, List.mem_cons_self _ _, hab⟩
    · rcases ih b hb with ⟨a, ha, hr⟩
      exact ⟨a, List.mem_cons_of_mem _ ha, hr⟩

theorem pairwise_of_forall₂ {α β : Type} {R : α → α → Prop} {R' : β → β → Prop}
    {rel : α → β → Prop}
    (himp : ∀ a b a' b', rel a b → rel a' b' → R a a' → R' b b') :
    ∀ {l : List α} {bs : List β}, List.Forall₂ rel l bs → List.Pairwise R l →
      List.Pairwise R' bs := by
  intro l bs h2
  induction h2 with
  | nil => intro _; exact List.Pairwise.nil
  | cons hab h2' ih =>
    intro hp
    rcases List.pairwise_cons.mp hp with ⟨hhead, htail⟩
    refine List.pairwise_cons.mpr ⟨?_, ih htail⟩
    intro b' hb'
    rcases forall₂_mem_right h2' b' hb' with ⟨a', ha', hrel'⟩
    exact himp _ _ _ _ hab hrel' (hhead a' ha')

/-! ## C10, C6, C1 -/

theorem createdState_now (s : Sys) (pd : PostCreate) (uid : Nat) :
    (createdState s pd uid).now = s.now := rfl

theorem createdState_cache (s : Sys) (pd : PostCreate) (uid : Nat) :
    (createdState s pd uid).cache = CacheManager.invalidate_user_posts s.cache uid := rfl

/-- C10. Populating the cache with the dumped responses and reading it back
before expiry is a hit that reproduces the original responses — every field
survives the dict round trip, and an empty listing is served as a hit, not
a miss. -/
theorem C10_cache_round_trip (s : Sys) (uid : Nat) (ps : List PostResponse) (now2 : Nat)
    (hvalid : ∀ p ∈ ps, 0 < p.id ∧ 0 < p.user_id)
    (hlive : now2 < s.now + CACHE_TTL) : C10Concl s uid ps now2 := by
  have hget : CacheManager.get_user_posts now2
      (CacheManager.set_user_posts s.now s.cache uid (ps.map PostResponse.model_dump)) uid
      = some (ps.map PostResponse.model_dump) := by
    unfold CacheManager.get_user_posts CacheManager.set_user_posts
    rw [lookupKey_storeSet_self]
    simp [hlive]
  refine ⟨hget, ?_, ?_⟩
  · simp [PostService.get_user_posts, hget, mapExcept_ofDict_dump ps hvalid]
  · simp [PostService.get_user_posts, hget, mapExcept_ofDict_dump ps hvalid]

theorem C10_cache_round_trip_witness : C10Concl ⟨[], [], 1, [], 0⟩ 1 [] 0 :=
  C10_cache_round_trip ⟨[], [], 1, [], 0⟩ 1 [] 0 (by simp) (by norm_num [CACHE_TTL])

/-- C6 counterexample. Two posts of the same owner share a creation
timestamp; the listing query orders only by `created_at DESC`, so they come
back in table order — ids ascending — violating the claimed deterministic
descending-id tie-break. -/
theorem C6_counterexample :
    (PostService.get_user_posts
        ⟨[1], [⟨1, "a", 1, 5, 5⟩, ⟨2, "b", 1, 5, 5⟩], 3, [], 10⟩ 1).result
      = .ok [⟨1, "a", 1, 5, 5⟩, ⟨2, "b", 1, 5, 5⟩] ∧
    ¬ List.Pairwise specClaimedOrder
      [(⟨1, "a", 1, 5, 5⟩ : PostResponse), ⟨2, "b", 1, 5, 5⟩] := by
  constructor
  · rfl
  · decide

/-- C6 amended. A cache-missing listing is ordered by creation time
descending, but there is no id tie-break: equal-timestamp rows keep the
repository's table order (ascending insertion), so the claimed
descending-id determinism does not hold. -/
theorem C6_created_desc_only (s : Sys) (uid : Nat)
    (hmiss : CacheManager.get_user_posts s.now s.cache uid = none) : C6Concl s uid := by
  intro resps hr
  cases hmap : mapExcept PostResponse.model_validate (dbQueryPostsByUser s uid) with
  | error e => simp [PostService.get_user_posts, hmiss, hmap] at hr
  | ok resps0 =>
    simp [PostService.get_user_posts, hmiss, hmap] at hr
    subst hr
    have hf2 := mapExcept_forall₂ hmap
    have hsorted := sorted_sortByCreatedDesc (s.posts.filter (fun p => p.user_id == uid))
    refine pairwise_of_forall₂ ?_ hf2 hsorted
    intro a b a' b' hab hab' hR
    rw [(model_validate_fields hab).1, (model_validate_fields hab').1]
    exact hR

theorem C6_created_desc_only_witness :
    C6Concl ⟨[1], [⟨1, "a", 1, 5, 5⟩, ⟨2, "b", 1, 7, 7⟩], 3, [], 10⟩ 1 :=
  C6_created_desc_only ⟨[1], [⟨1, "a", 1, 5, 5⟩, ⟨2, "b", 1, 7, 7⟩], 3, [], 10⟩ 1 rfl

/-- C1. A committing `create_post` returns the created post and leaves no
cache slot for the owner — the slot is invalidated, never repopulated — so
the immediately following `get_user_posts` misses the cache, queries the
repository, and its listing contains the new post. -/
theorem C1_create_then_list (s : Sys) (pd : PostCreate) (uid : Nat)
    (hWF : WF s) (huid : uid ∈ s.users) : C1Concl s pd uid := by
  obtain ⟨hnext, husers, hposts⟩ := hWF
  have huidpos : 0 < uid := husers uid huid
  have hval : PostResponse.model_validate ⟨s.next_id, pd.text, uid, s.now, s.now⟩
      = .ok ⟨s.next_id, pd.text, uid, s.now, s.now⟩ :=
    model_validate_ok hnext huidpos
  have hcreate : PostService.create_post s pd uid none =
      ⟨createdState s pd uid, .ok ⟨s.next_id, pd.text, uid, s.now, s.now⟩⟩ := by
    unfold PostService.create_post createdState
    rw [if_pos huid]
    simp [hval]
  have hlknone : lookupKey (CacheManager.invalidate_user_posts s.cache uid)
      (CacheManager.make_cache_key uid) = none :=
    lookupKey_removeKey_self s.cache _
  have hmiss : CacheManager.get_user_posts s.now
      (CacheManager.invalidate_user_posts s.cache uid) uid = none := by
    unfold CacheManager.get_user_posts
    rw [hlknone]
  refine ⟨⟨s.next_id, pd.text, uid, s.now, s.now⟩, ?_, ?_, ?_, ?_, ?_⟩
  · rw [hcreate]
  · rw [hcreate]
    exact hlknone
  · rw [hcreate]
    exact hmiss
  · rw [hcreate]
    cases hmap : mapExcept PostResponse.model_validate
        (dbQueryPostsByUser (createdState s pd uid) uid) with
    | ok resps =>
      simp [PostService.get_user_posts, createdState_now, createdState_cache, hmiss, hmap]
    | error e =>
      simp [PostService.get_user_posts, createdState_now, createdState_cache, hmiss, hmap]
  · rw [hcreate]
    have hmem_all : ∀ r ∈ dbQueryPostsByUser (createdState s pd uid) uid,
        0 < r.id ∧ 0 < r.user_id := by
      intro r hr
      unfold dbQueryPostsByUser createdState at hr
      have hr2 := mem_sortByCreatedDesc.mp hr
      have hr3 := (List.mem_filter.mp hr2).1
      rcases List.mem_append.mp hr3 with h | h
      · exact hposts r h
      · simp at h
        subst h
        exact ⟨hnext, huidpos⟩
    have hmapok : mapExcept PostResponse.model_validate
        (dbQueryPostsByUser (createdState s pd uid) uid)
        = .ok ((dbQueryPostsByUser (createdState s pd uid) uid).map toResponse) :=
      mapExcept_ok_of_forall (fun r hr => by
        obtain ⟨h1, h2⟩ := hmem_all r hr
        rw [model_validate_ok h1 h2]
        rfl)
    have hnew_mem : (⟨s.next_id, pd.text, uid, s.now, s.now⟩ : PostRec) ∈
        dbQueryPostsByUser (createdState s pd uid) uid := by
      unfold dbQueryPostsByUser createdState
      rw [mem_sortByCreatedDesc]
      refine List.mem_filter.mpr ⟨List.mem_append.mpr (Or.inr (by simp)), by simp⟩
    refine ⟨(dbQueryPostsByUser (createdState s pd uid) uid).map toResponse, ?_, ?_⟩
    · simp [PostService.get_user_posts, createdState_now, createdState_cache, hmiss, hmapok]
    · exact List.mem_map.mpr ⟨_, hnew_mem, rfl⟩

theorem C1_create_then_list_witness : C1Concl ⟨[1], [], 1, [], 0⟩ ⟨"hello"⟩ 1 :=
  C1_create_then_list ⟨[1], [], 1, [], 0⟩ ⟨"hello"⟩ 1
    (by refine ⟨by norm_num, ?_, ?_⟩ <;> simp) (by simp)

/-! ## C4: delete semantics -/

/-- C4. `delete_post` raises the conflated 404 exactly when no row matches
both the post id and the owner id, whatever the storage outcome; on that
failure the world — every owner's rows and cache slots — is untouched; and
when a matching row exists and the commit goes through, that row is removed
and the owner's cache slot is invalidated. -/
theorem C4_delete_ownership (s : Sys) (pid uid : Nat) (commit : Option String) :
    ((PostService.delete_post s pid uid commit).result
        = .error ⟨404, "Пост не знайдено або він не належить вам"⟩
      ↔ s.posts.filter (fun p => p.id == pid && p.user_id == uid) = []) ∧
    (s.posts.filter (fun p => p.id == pid && p.user_id == uid) = [] →
      (PostService.delete_post s pid uid commit).state = s) ∧
    (∀ post, (s.posts.filter (fun p => p.id == pid && p.user_id == uid)).head? = some post →
      commit = none →
      (PostService.delete_post s pid uid commit).state.posts
          = s.posts.filter (fun p => !(p.id == pid)) ∧
      (PostService.delete_post s pid uid commit).state.cache
          = CacheManager.invalidate_user_posts s.cache uid) := by
  cases hh : (s.posts.filter (fun p => p.id == pid && p.user_id == uid)).head? with
  | none =>
    have hempty : s.posts.filter (fun p => p.id == pid && p.user_id == uid) = [] :=
      List.head?_eq_none_iff.mp hh
    refine ⟨⟨fun _ => hempty, fun _ => ?_⟩, fun _ => ?_, ?_⟩
    · simp [PostService.delete_post, hh]
    · simp [PostService.delete_post, hh]
    · intro post hsome
      exact absurd hsome (by simp)
  | some post =>
    have hne : s.posts.filter (fun p => p.id == pid && p.user_id == uid) ≠ [] := by
      intro hx
      rw [hx] at hh
      exact absurd hh (by simp)
    have hpid : post.id = pid := by
      have hm : post ∈ s.posts.filter (fun p => p.id == pid && p.user_id == uid) :=
        List.mem_of_mem_head? hh
      have hcond := (List.mem_filter.mp hm).2
      simp at hcond
      exact hcond.1
    refine ⟨⟨?_, fun hx => absurd hx hne⟩, fun hx => absurd hx hne, ?_⟩
    · intro hres
      cases commit with
      | some msg => simp [PostService.delete_post, hh] at hres
      | none =>
        by_cases hp : 0 < pid
        · simp [PostService.delete_post, hh, hp] at hres
        · simp [PostService.delete_post, hh, hp] at hres
    · intro post' hsome hc
      injection hsome with hsome
      subst hsome
      subst hc
      by_cases hp : 0 < pid
      · constructor
        · simp [PostService.delete_post, hh, hp, hpid]
        · simp [PostService.delete_post, hh, hp]
      · constructor
        · simp [PostService.delete_post, hh, hp, hpid]
        · simp [PostService.delete_post, hh, hp]

/-! ## C3: per-owner keying as an invariant of operation sequences -/

theorem storeOwnedOk_removeKey {store : CacheStore} (h : storeOwnedOk store) (k : String) :
    storeOwnedOk (removeKey store k) := by
  intro uid e he d hd
  by_cases hk : CacheManager.make_cache_key uid = k
  · rw [hk, lookupKey_removeKey_self] at he
    exact absurd he (by simp)
  · rw [lookupKey_removeKey_ne store hk] at he
    exact h uid e he d hd

theorem storeOwnedOk_set {store : CacheStore} (h : storeOwnedOk store) (uid : Nat)
    (posts : List PostDict) (cached_at expires : Nat)
    (hposts : ∀ d ∈ posts, d.user_id = uid) :
    storeOwnedOk (storeSet store (CacheManager.make_cache_key uid)
      ⟨expires, posts, cached_at, uid⟩) := by
  intro uid' e he d hd
  by_cases hk : CacheManager.make_cache_key uid' = CacheManager.make_cache_key uid
  · have huid : uid' = uid := make_cache_key_inj hk
    subst huid
    rw [lookupKey_storeSet_self] at he
    injection he with he
    subst he
    exact hposts d hd
  · rw [lookupKey_storeSet_ne store _ hk] at he
    exact h uid' e he d hd

theorem listResps_user_id {s : Sys} {uid : Nat} {resps : List PostResponse}
    (h : mapExcept PostResponse.model_validate (dbQueryPostsByUser s uid) = .ok resps) :
    ∀ p ∈ resps, p.user_id = uid := by
  intro p hp
  obtain ⟨r, hr, hv⟩ := mapExcept_mem_ok h p hp
  unfold dbQueryPostsByUser at hr
  have hrf := (List.mem_filter.mp (mem_sortByCreatedDesc.mp hr)).2
  have hru : r.user_id = uid := by simpa using hrf
  rw [(model_validate_fields hv).1]
  exact hru

theorem step_storeOwnedOk {s : Sys} (h : storeOwnedOk s.cache) (op : Op) :
    storeOwnedOk (stepSys s op).cache := by
  cases op with
  | tick d => exact h
  | create uid pd c =>
    show storeOwnedOk (PostService.create_post s pd uid c).state.cache
    by_cases huid : uid ∈ s.users
    · cases c with
      | some msg => simpa [PostService.create_post, huid] using h
      | none =>
        cases hmv : PostResponse.model_validate
            (⟨s.next_id, pd.text, uid, s.now, s.now⟩ : PostRec) with
        | ok r =>
          simp [PostService.create_post, huid, hmv, CacheManager.invalidate_user_posts]
          exact storeOwnedOk_removeKey h _
        | error e =>
          simp [PostService.create_post, huid, hmv, CacheManager.invalidate_user_posts]
          exact storeOwnedOk_removeKey h _
    · simpa [PostService.create_post, huid] using h
  | del pid uid c =>
    show storeOwnedOk (PostService.delete_post s pid uid c).state.cache
    cases hh : (s.posts.filter (fun p => p.id == pid && p.user_id == uid)).head? with
    | none => simpa [PostService.delete_post, hh] using h
    | some post =>
      cases c with
      | some msg => simpa [PostService.delete_post, hh] using h
      | none =>
        by_cases hp : 0 < pid
        · simp [PostService.delete_post, hh, hp, CacheManager.invalidate_user_posts]
          exact storeOwnedOk_removeKey h _
        · simp [PostService.delete_post, hh, hp, CacheManager.invalidate_user_posts]
          exact storeOwnedOk_removeKey h _
  | list uid =>
    show storeOwnedOk (PostService.get_user_posts s uid).state.cache
    cases hc : CacheManager.get_user_posts s.now s.cache uid with
    | some cached =>
      cases hm : mapExcept PostResponse.ofDict cached with
      | ok r => simpa [PostService.get_user_posts, hc, hm] using h
      | error e => simpa [PostService.get_user_posts, hc, hm] using h
    | none =>
      cases hm : mapExcept PostResponse.model_validate (dbQueryPostsByUser s uid) with
      | error e => simpa [PostService.get_user_posts, hc, hm] using h
      | ok resps =>
        simp [PostService.get_user_posts, hc, hm, CacheManager.set_user_posts]
        apply storeOwnedOk_set h
        intro d hd
        obtain ⟨p, hp, hdp⟩ := List.mem_map.mp hd
        rw [← hdp]
        have hpu := listResps_user_id hm p hp
        simpa [PostResponse.model_dump] using hpu

theorem run_storeOwnedOk : ∀ (ops : List Op) (s : Sys), storeOwnedOk s.cache →
    storeOwnedOk (runSys s ops).cache := by
  intro ops
  induction ops with
  | nil => intro s h; exact h
  | cons op ops ih => intro s h; exact ih _ (step_storeOwnedOk h op)

theorem list_result_owner {s : Sys} {uid : Nat} (hs : storeOwnedOk s.cache) :
    ∀ resps, (PostService.get_user_posts s uid).result = .ok resps →
      ∀ p ∈ resps, p.user_id = uid := by
  intro resps hr p hp
  cases hc : CacheManager.get_user_posts s.now s.cache uid with
  | none =>
    cases hm : mapExcept PostResponse.model_validate (dbQueryPostsByUser s uid) with
    | error e => simp [PostService.get_user_posts, hc, hm] at hr
    | ok resps0 =>
      simp [PostService.get_user_posts, hc, hm] at hr
      subst hr
      exact listResps_user_id hm p hp
  | some cached =>
    cases hm : mapExcept PostResponse.ofDict cached with
    | error e => simp [PostService.get_user_posts, hc, hm] at hr
    | ok resps0 =>
      simp [PostService.get_user_posts, hc, hm] at hr
      subst hr
      obtain ⟨d, hd, hdp⟩ := mapExcept_mem_ok hm p hp
      have hcd : ∀ d ∈ cached, d.user_id = uid := by
        unfold CacheManager.get_user_posts at hc
        cases hlk : lookupKey s.cache (CacheManager.make_cache_key uid) with
        | none => rw [hlk] at hc; exact absurd hc (by simp)
        | some e =>
          simp only [hlk] at hc
          by_cases ht : s.now < e.expires
          · rw [if_pos ht] at hc
            injection hc with hc
            subst hc
            exact hs uid e hlk
          · rw [if_neg ht] at hc
            exact absurd hc (by simp)
      rw [ofDict_fields hdp]
      exact hcd d hd

/-- C3. Starting from any world whose cache satisfies the per-owner keying
invariant — in particular an empty cache — no sequence of operations can
make a listing for one owner return a post owned by a different owner:
cache keys are exclusively per owner id and each populated slot holds only
its owner's posts. -/
theorem C3_no_cross_owner_reads (s0 : Sys) (ops : List Op) (uid1 uid2 : Nat)
    (hinv : storeOwnedOk s0.cache) (hne : uid1 ≠ uid2) :
    C3Concl (runSys s0 ops) uid1 uid2 := by
  intro resps hr p hp
  rw [list_result_owner (run_storeOwnedOk ops s0 hinv) resps hr p hp]
  exact hne

theorem C3_no_cross_owner_reads_witness :
    C3Concl (runSys ⟨[1, 2], [⟨1, "a", 1, 0, 0⟩], 2, [], 0⟩
      [Op.list 1, Op.create 2 ⟨"b"⟩ none, Op.list 2]) 1 2 :=
  C3_no_cross_owner_reads ⟨[1, 2], [⟨1, "a", 1, 0, 0⟩], 2, [], 0⟩
    [Op.list 1, Op.create 2 ⟨"b"⟩ none, Op.list 2] 1 2
    (fun uid e he => absurd he (by simp [lookupKey])) (by decide)

end App
